import Mathlib

/-!
The cloudhub httpserver: server certificate request and bootstrap-token rotation.

A shallow embedding of `cloud/pkg/cloudhub/servers/httpserver/signcerts.go`
(`SignCerts`, `getIps`, `GenerateToken`, `refreshToken`, `getCaHash`, `getCaKey`)
together with the library behaviour those functions rely on:

* `time.Duration` is a signed 64-bit count of nanoseconds, multiplication wraps;
* `time.Time` is a wall-clock instant, `Unix` truncates it to whole seconds;
* `sha256.Sum256` and `hex.EncodeToString` are implemented in full;
* `net.ParseIP` is implemented for dotted IPv4 and for IPv6 text, after the parser of
  package `net/netip` that it calls;
* `refreshToken` and the rotation loop take the token signer as a parameter; the signer
  the source uses, `jwt.Token.SignedString` with `SigningMethodHS256` and a byte-slice
  key, is implemented in full (JSON of the header and of the claims, unpadded URL
  base64, HMAC-SHA256);
* the certificate issuer (`NewCloudCoreCertDERandKey`) and the outcome of the secret
  store (`CreateTokenSecret`) are inputs supplied by the environment.
-/

namespace Httpserver

/-! ## Basic Go data -/

/-- One byte. -/
abbrev Byte := Fin 256

/-- Go `string`, as its sequence of characters. -/
abbrev GoString := List Char

/-- Go `error` values; `none : Option GoError` is the nil error. -/
abbrev GoError := String

/-- Truncation of a natural number to a byte, Go `byte(n)`. -/
def byteOf (n : Nat) : Byte := ⟨n % 256, Nat.mod_lt _ (by decide)⟩

/-- Two-complement wrap-around of an integer into the `int64` range. -/
def wrapInt64 (x : Int) : Int := (x + 2 ^ 63) % 2 ^ 64 - 2 ^ 63

/-! ## package time -/

/-- Go `time.Hour`. A `time.Duration` is a count of nanoseconds held in an `int64`; it is
an integer here, and the operations wrap. -/
def Hour : Int := 3600000000000

/-- Multiplication of two `time.Duration` values, as Go computes it on `int64`. -/
def Duration.mul (a b : Int) : Int := wrapInt64 (a * b)

/-- Go `time.Time` read as a wall-clock instant: nanoseconds since the Unix epoch. -/
structure Time where
  nanos : Int
deriving DecidableEq, Repr

/-- Go `Time.Add`. -/
def Time.Add (t : Time) (d : Int) : Time := ⟨t.nanos + d⟩

/-- Go `Time.Unix`: whole seconds since the epoch, rounded towards minus infinity. -/
def Time.Unix (t : Time) : Int := t.nanos / 1000000000

/-! ## crypto/sha256 -/

def mask32 : Nat := 4294967296

def rotr32 (x n : Nat) : Nat := ((x >>> n) ||| (x <<< (32 - n))) % mask32

def sha256K : List Nat := [
  0x428a2f98, 0x71374491, 0xb5c0fbcf, 0xe9b5dba5, 0x3956c25b, 0x59f111f1, 0x923f82a4, 0xab1c5ed5,
  0xd807aa98, 0x12835b01, 0x243185be, 0x550c7dc3, 0x72be5d74, 0x80deb1fe, 0x9bdc06a7, 0xc19bf174,
  0xe49b69c1, 0xefbe4786, 0x0fc19dc6, 0x240ca1cc, 0x2de92c6f, 0x4a7484aa, 0x5cb0a9dc, 0x76f988da,
  0x983e5152, 0xa831c66d, 0xb00327c8, 0xbf597fc7, 0xc6e00bf3, 0xd5a79147, 0x06ca6351, 0x14292967,
  0x27b70a85, 0x2e1b2138, 0x4d2c6dfc, 0x53380d13, 0x650a7354, 0x766a0abb, 0x81c2c92e, 0x92722c85,
  0xa2bfe8a1, 0xa81a664b, 0xc24b8b70, 0xc76c51a3, 0xd192e819, 0xd6990624, 0xf40e3585, 0x106aa070,
  0x19a4c116, 0x1e376c08, 0x2748774c, 0x34b0bcb5, 0x391c0cb3, 0x4ed8aa4a, 0x5b9cca4f, 0x682e6ff3,
  0x748f82ee, 0x78a5636f, 0x84c87814, 0x8cc70208, 0x90befffa, 0xa4506ceb, 0xbef9a3f7, 0xc67178f2]

/-- The padded message: the data, 0x80, zeros up to 56 mod 64, then the bit length as a
big-endian 64-bit integer. -/
def sha256Pad (data : List Byte) : List Nat :=
  let len := data.length
  let zeros := (119 - len % 64) % 64
  let bits := (len * 8) % 2 ^ 64
  data.map Fin.val ++ [0x80] ++ List.replicate zeros 0 ++
    (List.range 8).map (fun i => (bits >>> (8 * (7 - i))) % 256)

/-- Big-endian 32-bit words of a byte list. -/
def beWords : List Nat → List Nat
  | a :: b :: c :: d :: rest => (a <<< 24 ||| b <<< 16 ||| c <<< 8 ||| d) :: beWords rest
  | _ => []

/-- Message schedule: extends the block words by `n` further words. The list is kept
newest first, so `w[i-2]` sits at index 1, `w[i-7]` at 6, `w[i-15]` at 14, `w[i-16]` at 15. -/
def sha256Schedule : Nat → List Nat → List Nat
  | 0, w => w
  | n + 1, w =>
    let v1 := w.getD 1 0
    let v2 := w.getD 14 0
    let t1 := rotr32 v1 17 ^^^ rotr32 v1 19 ^^^ (v1 >>> 10)
    let t2 := rotr32 v2 7 ^^^ rotr32 v2 18 ^^^ (v2 >>> 3)
    sha256Schedule n (((t1 + w.getD 6 0 + t2 + w.getD 15 0) % mask32) :: w)

/-- The eight working registers of SHA-256. -/
structure Sha256Regs where
  a : Nat
  b : Nat
  c : Nat
  d : Nat
  e : Nat
  f : Nat
  g : Nat
  h : Nat
deriving DecidableEq, Repr

/-- One of the 64 rounds, with round constant `kw.1` and schedule word `kw.2`. -/
def sha256Round (r : Sha256Regs) (kw : Nat × Nat) : Sha256Regs :=
  let t1 := r.h + (rotr32 r.e 6 ^^^ rotr32 r.e 11 ^^^ rotr32 r.e 25) +
    ((r.e &&& r.f) ^^^ ((r.e ^^^ 0xffffffff) &&& r.g)) + kw.1 + kw.2
  let t2 := (rotr32 r.a 2 ^^^ rotr32 r.a 13 ^^^ rotr32 r.a 22) +
    ((r.a &&& r.b) ^^^ (r.a &&& r.c) ^^^ (r.b &&& r.c))
  { a := (t1 + t2) % mask32, b := r.a, c := r.b, d := r.c,
    e := (r.d + t1) % mask32, f := r.e, g := r.f, h := r.g }

/-- The compression function on one 64-byte block. -/
def sha256Block (hs : Sha256Regs) (block : List Nat) : Sha256Regs :=
  let w := (sha256Schedule 48 (beWords block).reverse).reverse
  let r := (sha256K.zip w).foldl sha256Round hs
  { a := (hs.a + r.a) % mask32, b := (hs.b + r.b) % mask32, c := (hs.c + r.c) % mask32,
    d := (hs.d + r.d) % mask32, e := (hs.e + r.e) % mask32, f := (hs.f + r.f) % mask32,
    g := (hs.g + r.g) % mask32, h := (hs.h + r.h) % mask32 }

/-- Runs the compression function over `n` consecutive 64-byte blocks. -/
def sha256Blocks : Nat → Sha256Regs → List Nat → Sha256Regs
  | 0, hs, _ => hs
  | n + 1, hs, msg => sha256Blocks n (sha256Block hs (msg.take 64)) (msg.drop 64)

/-- Big-endian bytes of a 32-bit word. -/
def be32 (x : Nat) : List Byte :=
  [byteOf (x >>> 24), byteOf (x >>> 16), byteOf (x >>> 8), byteOf x]

/-- Go `sha256.Sum256`: the digest, as its bytes in order. -/
def Sum256 (data : List Byte) : List Byte :=
  let msg := sha256Pad data
  let r := sha256Blocks (msg.length / 64)
    { a := 0x6a09e667, b := 0xbb67ae85, c := 0x3c6ef372, d := 0xa54ff53a,
      e := 0x510e527f, f := 0x9b05688c, g := 0x1f83d9ab, h := 0x5be0cd19 } msg
  be32 r.a ++ be32 r.b ++ be32 r.c ++ be32 r.d ++ be32 r.e ++ be32 r.f ++ be32 r.g ++ be32 r.h

/-! ## encoding/hex -/

/-- Go `hextable`. -/
def hextable : List Char := "0123456789abcdef".toList

/-- Go `hex.EncodeToString`: two characters per byte, high nibble first. -/
def hexEncodeToString : List Byte → GoString
  | [] => []
  | v :: rest =>
    hextable.getD (v.val >>> 4) '0' :: hextable.getD (v.val &&& 0x0f) '0' ::
      hexEncodeToString rest

/-- Go `fromHexChar`: the value of one hexadecimal digit. -/
def fromHexChar (c : Char) : Option Nat :=
  if '0' ≤ c ∧ c ≤ '9' then some (c.toNat - '0'.toNat)
  else if 'a' ≤ c ∧ c ≤ 'f' then some (c.toNat - 'a'.toNat + 10)
  else if 'A' ≤ c ∧ c ≤ 'F' then some (c.toNat - 'A'.toNat + 10)
  else none

/-- Go `hex.DecodeString`: `none` on a bad digit or an odd length. -/
def hexDecodeString : GoString → Option (List Byte)
  | [] => some []
  | [_] => none
  | hi :: lo :: rest =>
    match fromHexChar hi, fromHexChar lo, hexDecodeString rest with
    | some a, some b, some bs => some (byteOf (a <<< 4 ||| b) :: bs)
    | _, _, _ => none

/-- Lowercase hexadecimal digits. -/
def isLowerHex (c : Char) : Bool := c ∈ hextable

/-! ## strings -/

/-- Go `strings.Join`. -/
def stringsJoin : List GoString → GoString → GoString
  | [], _ => []
  | [a], _ => a
  | a :: b :: rest, sep => a ++ sep ++ stringsJoin (b :: rest) sep

/-- Go `strings.Cut` with separator `.`: the text before the first dot and the text after
it, `none` when there is no dot. -/
def cutAtDot : GoString → Option (GoString × GoString)
  | [] => none
  | c :: rest =>
    if c = '.' then some ([], rest)
    else match cutAtDot rest with
      | some (before, after) => some (c :: before, after)
      | none => none

/-! ## package net -/

/-- Go `net.IP`: a byte slice, `none` being the nil slice that `ParseIP` returns for text
that is not an address. -/
abbrev IP := Option (List Byte)

/-- Go `net.IPv4`: the 16-byte form of an IPv4 address. -/
def IPv4 (a b c d : Byte) : List Byte :=
  [0, 0, 0, 0, 0, 0, 0, 0, 0, 0, 0xff, 0xff, a, b, c, d]

/-- Loop of `netip.parseIPv4` over the text still to read: `prev` is the character just
read (`none` at the start), `fields` the octets completed so far, `val` and `digLen` the
value and the number of digits of the octet being read. Returns the completed octets and
the value of the last one, `none` on an error. -/
def parseIPv4Loop : List Char → Option Char → List Byte → Nat → Nat → Option (List Byte × Nat)
  | [], _, fields, val, _ => some (fields, val)
  | c :: rest, prev, fields, val, digLen =>
    if '0' ≤ c ∧ c ≤ '9' then
      if digLen = 1 ∧ val = 0 then none
      else
        let v := val * 10 + (c.toNat - '0'.toNat)
        if v > 255 then none
        else parseIPv4Loop rest (some c) fields v (digLen + 1)
    else if c = '.' then
      if prev = none ∨ rest = [] ∨ prev = some '.' then none
      else if fields.length = 3 then none
      else parseIPv4Loop rest (some c) (fields ++ [byteOf val]) 0 0
    else none

/-- Go `netip.parseIPv4`: the four octets. -/
def parseIPv4 (s : List Char) : Option (List Byte) :=
  match parseIPv4Loop s none [] 0 0 with
  | none => none
  | some (fields, val) =>
    if fields.length < 3 then none
    else some (fields ++ [byteOf val])

/-- Hex number at the start of a group in `netip.parseIPv6`: the value and the number of
digits read, `none` when a fifth digit is met or the value exceeds 16 bits. `acc` is a
`uint32`. -/
def hexGroupLoop : List Char → Nat → Nat → Option (Nat × Nat)
  | [], off, acc => some (acc, off)
  | c :: rest, off, acc =>
    match fromHexChar c with
    | none => some (acc, off)
    | some v =>
      let a := (acc <<< 4 + v) % 2 ^ 32
      if off > 3 then none
      else if a > 0xFFFF then none
      else hexGroupLoop rest (off + 1) a

/-- Loop of `netip.parseIPv6`: `ip` holds the bytes written so far (its length is the
index `i`), `ellipsis` the position of `::` if one was seen. Returns the state at the
`break`, or `none` on an error. -/
def parseIPv6Loop : Nat → List Byte → Option Nat → List Char →
    Option (List Byte × Option Nat × List Char)
  | 0, ip, ellipsis, s => some (ip, ellipsis, s)
  | fuel + 1, ip, ellipsis, s =>
    if ip.length ≥ 16 then some (ip, ellipsis, s)
    else
      match hexGroupLoop s 0 0 with
      | none => none
      | some (acc, off) =>
        if off = 0 then none
        else if off < s.length && s.getD off ' ' = '.' then
          if ellipsis.isNone && ip.length ≠ 12 then none
          else if ip.length + 4 > 16 then none
          else match parseIPv4 s with
            | none => none
            | some ip4 => some (ip ++ ip4, ellipsis, [])
        else
          let ip1 := ip ++ [byteOf (acc >>> 8), byteOf acc]
          match s.drop off with
          | [] => some (ip1, ellipsis, [])
          | c0 :: s2 =>
            if c0 ≠ ':' then none
            else if s2 = [] then none
            else match s2 with
              | ':' :: s3 =>
                if ellipsis.isSome then none
                else if s3 = [] then some (ip1, some ip1.length, [])
                else parseIPv6Loop fuel ip1 (some ip1.length) s3
              | _ => parseIPv6Loop fuel ip1 ellipsis s2

/-- End of `netip.parseIPv6`: the whole text must be used, and a short address is
completed by zeros at the ellipsis. -/
def parseIPv6Finish (r : List Byte × Option Nat × List Char) : Option (List Byte) :=
  match r with
  | (ip, ellipsis, s) =>
    if s ≠ [] then none
    else if ip.length < 16 then
      match ellipsis with
      | none => none
      | some e => some (ip.take e ++ List.replicate (16 - ip.length) 0 ++ ip.drop e)
    else if ellipsis.isSome then none
    else some ip

/-- Splits a zone off an IPv6 text at the first percent sign: the address text and the
zone, `none` when there is no percent sign. -/
def splitZone : List Char → List Char × Option (List Char)
  | [] => ([], none)
  | c :: rest =>
    if c = '%' then ([], some rest)
    else match splitZone rest with
      | (addr, zone) => (c :: addr, zone)

/-- Address part of `netip.parseIPv6`, the zone being split off. -/
def parseIPv6Addr (s : List Char) : Option (List Byte) :=
  match s with
  | [':', ':'] => some (List.replicate 16 0)
  | ':' :: ':' :: rest =>
    match parseIPv6Loop 8 [] (some 0) rest with
    | none => none
    | some r => parseIPv6Finish r
  | _ =>
    match parseIPv6Loop 8 [] none s with
    | none => none
    | some r => parseIPv6Finish r

/-- Go `netip.parseIPv6`: the 16 bytes and the zone (empty when none is given). -/
def parseIPv6 (s : List Char) : Option (List Byte × List Char) :=
  match splitZone s with
  | (_, some []) => none
  | (addr, zone) =>
    match parseIPv6Addr addr with
    | none => none
    | some ip => some (ip, zone.getD [])

/-- Loop of Go `netip.ParseAddr`: the first dot, colon or percent sign decides; `s` is the
whole text and the argument the part still to scan. The result is the address in its
16-byte form (`Addr.As16`) and its zone. -/
def parseAddrScan (s : List Char) : List Char → Option (List Byte × List Char)
  | [] => none
  | c :: rest =>
    if c = '.' then
      match parseIPv4 s with
      | some [a, b, c4, d] => some (IPv4 a b c4 d, [])
      | _ => none
    else if c = ':' then parseIPv6 s
    else if c = '%' then none
    else parseAddrScan s rest

/-- Go `net.ParseIP`: `netip.ParseAddr`, refusing an address with a zone; nil (`none`)
when the text is not a valid address. -/
def ParseIP (s : GoString) : IP :=
  match parseAddrScan s s with
  | none => none
  | some (ip, zone) => if zone ≠ [] then none else some ip

/-! ## Configuration and collaborators -/

/-- Modelled from the spec: the constant `constants.ProjectName` of `common/constants` is
not part of the source file; the spec requires the common name and the organization of
the request to be non-empty, and the name of the project is the value. -/
def ProjectName : GoString := "KubeEdge".toList

/-- The fields of `hubconfig.Config` that this file reads. -/
structure HubConfig where
  Ca : List Byte
  CaKey : List Byte
  TokenRefreshDuration : Int
  DNSNames : List GoString
  AdvertiseAddress : List GoString

/-- Go `x509.ExtKeyUsage`. -/
inductive ExtKeyUsage where
  | ExtKeyUsageAny
  | ExtKeyUsageServerAuth
  | ExtKeyUsageClientAuth
  | ExtKeyUsageCodeSigning
  | ExtKeyUsageEmailProtection
  | ExtKeyUsageIPSECEndSystem
  | ExtKeyUsageIPSECTunnel
  | ExtKeyUsageIPSECUser
  | ExtKeyUsageTimeStamping
  | ExtKeyUsageOCSPSigning
  | ExtKeyUsageMicrosoftServerGatedCrypto
  | ExtKeyUsageNetscapeServerGatedCrypto
  | ExtKeyUsageMicrosoftCommercialCodeSigning
  | ExtKeyUsageMicrosoftKernelCodeSigning
deriving DecidableEq, Repr

/-- Go `certutil.AltNames`. -/
structure AltNames where
  DNSNames : List GoString
  IPs : List IP
deriving DecidableEq, Repr

/-- Go `certutil.Config`. -/
structure CertConfig where
  CommonName : GoString
  Organization : List GoString
  AltNames : AltNames
  Usages : List ExtKeyUsage
deriving DecidableEq, Repr

/-- What a call that yields `([]byte, []byte, error)` returns; `none` is nil. -/
structure CertResult where
  certDER : Option (List Byte)
  keyDER : Option (List Byte)
  err : Option GoError
deriving DecidableEq, Repr

/-- The certificate issuer `NewCloudCoreCertDERandKey`, an external collaborator. -/
abbrev Issuer := CertConfig → CertResult

/-- Go `jwt.StandardClaims`. -/
structure StandardClaims where
  Audience : GoString
  ExpiresAt : Int
  Id : GoString
  IssuedAt : Int
  Issuer : GoString
  NotBefore : Int
  Subject : GoString
deriving DecidableEq, Repr

/-- The zero value `jwt.StandardClaims{}`. -/
def StandardClaims.zero : StandardClaims :=
  { Audience := [], ExpiresAt := 0, Id := [], IssuedAt := 0, Issuer := [],
    NotBefore := 0, Subject := [] }

/-- A signer: what `jwt.NewWithClaims(jwt.SigningMethodHS256, claims).SignedString(key)`
gives, the token string and the error. -/
abbrev Signer := StandardClaims → List Byte → GoString × Option GoError

/-! ## encoding/json, encoding/base64, crypto/hmac and the HS256 signer of golang-jwt -/

/-- Go `[]byte(s)`: the UTF-8 bytes of a string. -/
def utf8Encode (c : Char) : List Byte :=
  let n := c.toNat
  if n < 0x80 then [byteOf n]
  else if n < 0x800 then [byteOf (0xC0 ||| (n >>> 6)), byteOf (0x80 ||| (n &&& 0x3F))]
  else if n < 0x10000 then
    [byteOf (0xE0 ||| (n >>> 12)), byteOf (0x80 ||| ((n >>> 6) &&& 0x3F)),
      byteOf (0x80 ||| (n &&& 0x3F))]
  else
    [byteOf (0xF0 ||| (n >>> 18)), byteOf (0x80 ||| ((n >>> 12) &&& 0x3F)),
      byteOf (0x80 ||| ((n >>> 6) &&& 0x3F)), byteOf (0x80 ||| (n &&& 0x3F))]

/-- The bytes of a Go string. -/
def stringBytes (s : GoString) : List Byte := s.flatMap utf8Encode

/-- The backslash. -/
def backslash : Char := Char.ofNat 92

/-- The double quote. -/
def dquote : Char := Char.ofNat 34

/-- How `json.Marshal` writes one character of a string (HTML escaping on). -/
def jsonEscapeChar (c : Char) : GoString :=
  let n := c.toNat
  if n = 34 then [backslash, dquote]
  else if n = 92 then [backslash, backslash]
  else if n = 8 then [backslash, 'b']
  else if n = 12 then [backslash, 'f']
  else if n = 10 then [backslash, 'n']
  else if n = 13 then [backslash, 'r']
  else if n = 9 then [backslash, 't']
  else if n < 0x20 ∨ n = 60 ∨ n = 62 ∨ n = 38 then
    [backslash, 'u', '0', '0', hextable.getD (n >>> 4) '0', hextable.getD (n &&& 0x0f) '0']
  else if n = 0x2028 ∨ n = 0x2029 then
    [backslash, 'u', '2', '0', '2', hextable.getD (n &&& 0x0f) '0']
  else [c]

/-- A string as `json.Marshal` writes it. -/
def jsonString (s : GoString) : GoString := dquote :: s.flatMap jsonEscapeChar ++ [dquote]

/-- An `int64` as `json.Marshal` writes it. -/
def jsonInt (n : Int) : GoString :=
  if n < 0 then '-' :: Nat.toDigits 10 n.natAbs else Nat.toDigits 10 n.natAbs

/-- A JSON object from its members, already written. -/
def jsonObject (members : List GoString) : GoString :=
  Char.ofNat 123 :: stringsJoin members [','] ++ [Char.ofNat 125]

/-- A string member with `omitempty`. -/
def jsonStringMember (name : GoString) (v : GoString) : List GoString :=
  if v = [] then [] else [jsonString name ++ ':' :: jsonString v]

/-- An integer member with `omitempty`. -/
def jsonIntMember (name : GoString) (v : Int) : List GoString :=
  if v = 0 then [] else [jsonString name ++ ':' :: jsonInt v]

/-- What `json.Marshal` gives for `jwt.StandardClaims`: the members in the order of the
struct, every one tagged `omitempty`. -/
def marshalStandardClaims (c : StandardClaims) : GoString :=
  jsonObject
    (jsonStringMember "aud".toList c.Audience ++ jsonIntMember "exp".toList c.ExpiresAt ++
      jsonStringMember "jti".toList c.Id ++ jsonIntMember "iat".toList c.IssuedAt ++
      jsonStringMember "iss".toList c.Issuer ++ jsonIntMember "nbf".toList c.NotBefore ++
      jsonStringMember "sub".toList c.Subject)

/-- What `json.Marshal` gives for the header that `jwt.NewWithClaims` builds with
`SigningMethodHS256`: the map with `typ` and `alg`, keys sorted. -/
def headerJSON : GoString :=
  jsonObject
    [jsonString "alg".toList ++ ':' :: jsonString "HS256".toList,
      jsonString "typ".toList ++ ':' :: jsonString "JWT".toList]

/-- Alphabet of `base64.URLEncoding`. -/
def encodeURL : List Char :=
  "ABCDEFGHIJKLMNOPQRSTUVWXYZabcdefghijklmnopqrstuvwxyz0123456789-_".toList

/-- One character of the URL alphabet. -/
def base64Char (n : Nat) : Char := encodeURL.getD n 'A'

/-- Go `base64.URLEncoding.EncodeToString`, with padding. -/
def base64URLEncodeToString : List Byte → GoString
  | a :: b :: c :: rest =>
    base64Char (a.val >>> 2) :: base64Char (((a.val &&& 3) <<< 4) ||| (b.val >>> 4)) ::
      base64Char (((b.val &&& 15) <<< 2) ||| (c.val >>> 6)) :: base64Char (c.val &&& 63) ::
      base64URLEncodeToString rest
  | [a, b] =>
    [base64Char (a.val >>> 2), base64Char (((a.val &&& 3) <<< 4) ||| (b.val >>> 4)),
      base64Char ((b.val &&& 15) <<< 2), '=']
  | [a] => [base64Char (a.val >>> 2), base64Char ((a.val &&& 3) <<< 4), '=', '=']
  | [] => []

/-- Go `strings.TrimRight(s, "=")`. -/
def trimRightEq (s : GoString) : GoString := (s.reverse.dropWhile (fun c => c = '=')).reverse

/-- Go `jwt.EncodeSegment`: URL base64 with the padding stripped. -/
def EncodeSegment (seg : List Byte) : GoString := trimRightEq (base64URLEncodeToString seg)

/-- Go `hmac.New(sha256.New, key)` followed by `Write(msg)` and `Sum(nil)`. -/
def hmacSHA256 (key msg : List Byte) : List Byte :=
  let k0 := if key.length > 64 then Sum256 key else key
  let k := k0 ++ List.replicate (64 - k0.length) 0
  let ipad := k.map (fun b => byteOf (b.val ^^^ 0x36))
  let opad := k.map (fun b => byteOf (b.val ^^^ 0x5c))
  Sum256 (opad ++ Sum256 (ipad ++ msg))

/-- The `key interface{}` argument of the jwt signing methods: a byte slice or a value
of another type. -/
inductive JwtKey where
  | bytes (key : List Byte)
  | other
deriving DecidableEq, Repr

/-- Go `jwt.ErrInvalidKeyType`. -/
def ErrInvalidKeyType : GoError := "key is of invalid type"

/-- Go `SigningMethodHMAC.Sign` for `SigningMethodHS256`: a key that is a byte slice
gives the encoded MAC of the signing string, any other key `ErrInvalidKeyType`. The hash
is available, `crypto/sha256` being linked into the program. -/
def signHS256 (signingString : GoString) (key : JwtKey) : GoString × Option GoError :=
  match key with
  | JwtKey.bytes keyBytes =>
    (EncodeSegment (hmacSHA256 keyBytes (stringBytes signingString)), none)
  | JwtKey.other => ([], some ErrInvalidKeyType)

/-- Go `Token.SigningString` for a token made by
`jwt.NewWithClaims(jwt.SigningMethodHS256, claims)` with standard claims: the encoded
header and the encoded claims, joined by a dot. Marshalling these values has no error. -/
def SigningString (claims : StandardClaims) : GoString :=
  stringsJoin
    [EncodeSegment (stringBytes headerJSON),
      EncodeSegment (stringBytes (marshalStandardClaims claims))] ['.']

/-- Go `Token.SignedString`: the signing string, a dot and the signature; the empty
string and the error when signing fails. -/
def SignedString (claims : StandardClaims) (key : JwtKey) : GoString × Option GoError :=
  let sstr := SigningString claims
  match signHS256 sstr key with
  | (_, some err) => ([], some err)
  | (sig, none) => (stringsJoin [sstr, sig] ['.'], none)

/-- The signer of the source: `refreshToken` signs with `SigningMethodHS256` and passes
the `[]byte` that `getCaKey` returns as the key. -/
def hs256Signer : Signer := fun claims keyPEM => SignedString claims (JwtKey.bytes keyPEM)

/-- Go `strings.Split(s, ".")`. -/
def splitDots : GoString → List GoString
  | [] => [[]]
  | c :: rest =>
    match splitDots rest with
    | [] => [[c]]
    | p :: ps => if c = '.' then [] :: p :: ps else (c :: p) :: ps

/-- The token has three dot-separated parts, and the third is the encoded HMAC-SHA256,
under the key, of the first two joined by a dot: the test that the HS256 verifier makes
on the signature. -/
def hasValidHS256Signature (key : List Byte) (token : GoString) : Bool :=
  match splitDots token with
  | [header, payload, sig] =>
    sig = EncodeSegment (hmacSHA256 key (stringBytes (header ++ '.' :: payload)))
  | _ => false

/-- Lines written through klog. -/
inductive LogLine where
  | info (msg : String)
  | error (msg : String) (err : GoError)
  | exit (msg : String) (err : GoError)
deriving DecidableEq, Repr

/-! ## signcerts.go -/

/-- Source `getIps`: appends `net.ParseIP(addr)` for every address, in order. -/
def getIps (advertiseAddress : List GoString) : List IP :=
  advertiseAddress.foldl (fun Ips addr => Ips ++ [ParseIP addr]) []

/-- The `certutil.Config` that `SignCerts` builds (source lines 37 to 45). -/
def signCertsConfig (cfg : HubConfig) : CertConfig :=
  { CommonName := ProjectName,
    Organization := [ProjectName],
    Usages := [ExtKeyUsage.ExtKeyUsageServerAuth],
    AltNames := { DNSNames := cfg.DNSNames, IPs := getIps cfg.AdvertiseAddress } }

/-- Source `SignCerts`, with the issuer `NewCloudCoreCertDERandKey` as a parameter. -/
def SignCerts (newCloudCoreCertDERandKey : Issuer) (cfg : HubConfig) : CertResult :=
  let r := newCloudCoreCertDERandKey (signCertsConfig cfg)
  if r.err ≠ none then { certDER := none, keyDER := none, err := r.err }
  else { certDER := r.certDER, keyDER := r.keyDER, err := none }

/-- Source `getCaHash`. -/
def getCaHash (cfg : HubConfig) : GoString :=
  let caDER := cfg.Ca
  let digest := Sum256 caDER
  hexEncodeToString digest

/-- Source `getCaKey`. -/
def getCaKey (cfg : HubConfig) : List Byte :=
  let caKey := cfg.CaKey
  caKey

/-- The claims that `refreshToken` signs (source lines 81 to 83): only `ExpiresAt` is
set, to the Unix second of now plus `time.Hour * TokenRefreshDuration * 2`. -/
def refreshTokenClaims (cfg : HubConfig) (now : Time) : StandardClaims :=
  let expirationTime := now.Add (Duration.mul (Duration.mul Hour cfg.TokenRefreshDuration) 2)
  { StandardClaims.zero with ExpiresAt := expirationTime.Unix }

/-- Source `refreshToken`: the credential and the lines logged. The clock reading and the
signer are inputs. A signing error is logged and the function goes on with the token
string that the signer returned. -/
def refreshToken (cfg : HubConfig) (sign : Signer) (now : Time) : GoString × List LogLine :=
  let claims := refreshTokenClaims cfg now
  let keyPEM := getCaKey cfg
  match sign claims keyPEM with
  | (tokenString, err) =>
    let logs := match err with
      | some e => [LogLine.error "Failed to generate token signed by caKey, err: %v" e]
      | none => []
    let caHash := getCaHash cfg
    let caHashAndToken := stringsJoin [caHash, tokenString] ['.']
    (caHashAndToken, logs)

/-- Where the goroutine of `GenerateToken` stands. -/
inductive Pc where
  | loopHead
  | waitTick
  | exited
deriving DecidableEq, Repr

/-- State of the rotation goroutine with its history. `published` is the credential of
the last `CreateTokenSecret` call that returned nil, `handed` every credential passed to
`CreateTokenSecret` (oldest first), `rotations` the number of `refreshToken` calls and
`ticks` the number of ticks received from the ticker. -/
structure Rotator where
  pc : Pc
  published : Option GoString
  handed : List GoString
  rotations : Nat
  ticks : Nat
  log : List LogLine
deriving DecidableEq, Repr

/-- What the environment does next: `iterate now publishErr` lets the goroutine run the
loop body (source lines 67 to 71) with clock reading `now` and with `CreateTokenSecret`
returning `publishErr`; `tick` delivers a tick on `t.C` (line 72). -/
inductive Event where
  | iterate (now : Time) (publishErr : Option GoError)
  | tick
deriving DecidableEq, Repr

/-- The goroutine when it is started: at the head of the loop, nothing published. -/
def Rotator.init : Rotator :=
  { pc := Pc.loopHead, published := none, handed := [], rotations := 0, ticks := 0, log := [] }

/-- Interval of the ticker of `GenerateToken`: `time.Hour * TokenRefreshDuration`. -/
def rotationPeriod (cfg : HubConfig) : Int := Duration.mul Hour cfg.TokenRefreshDuration

/-- Source `GenerateToken`: creates the ticker and starts the goroutine. `time.NewTicker`
panics on a non-positive interval, which is `none` here. -/
def GenerateToken (cfg : HubConfig) : Option Rotator :=
  if rotationPeriod cfg ≤ 0 then none
  else some Rotator.init

/-- One step of the goroutine of `GenerateToken`; `none` when the event cannot happen in
the state (a tick is only received at line 72, the body only runs at the loop head, and
nothing runs after `klog.Exitf`). -/
def Rotator.step (cfg : HubConfig) (sign : Signer) (s : Rotator) : Event → Option Rotator
  | Event.iterate now publishErr =>
    match s.pc with
    | Pc.loopHead =>
      match refreshToken cfg sign now with
      | (refreshedCaHashToken, logs) =>
        match publishErr with
        | some err =>
          some { s with
            pc := Pc.exited,
            handed := s.handed ++ [refreshedCaHashToken],
            rotations := s.rotations + 1,
            log := s.log ++ logs ++
              [LogLine.exit "Failed to create the ca token for edgecore register, err: %v" err] }
        | none =>
          some { s with
            pc := Pc.waitTick,
            published := some refreshedCaHashToken,
            handed := s.handed ++ [refreshedCaHashToken],
            rotations := s.rotations + 1,
            log := s.log ++ logs ++ [LogLine.info "Succeed to creating token"] }
    | _ => none
  | Event.tick =>
    match s.pc with
    | Pc.waitTick => some { s with pc := Pc.loopHead, ticks := s.ticks + 1 }
    | _ => none

/-- Runs a sequence of events; `none` as soon as one of them cannot happen. -/
def Rotator.run (cfg : HubConfig) (sign : Signer) : Rotator → List Event → Option Rotator
  | s, [] => some s
  | s, e :: es =>
    match Rotator.step cfg sign s e with
    | none => none
    | some s1 => Rotator.run cfg sign s1 es

/-- The events of an undisturbed execution: the loop body at each clock reading of `nows`,
a tick between two bodies, every publish succeeding. -/
def schedule : List Time → List Event
  | [] => []
  | [now] => [Event.iterate now none]
  | now :: next :: rest => Event.iterate now none :: Event.tick :: schedule (next :: rest)

/-- Every `CreateTokenSecret` call of the event sequence returns nil. -/
def allPublishOk : List Event → Bool
  | [] => true
  | Event.iterate _ publishErr :: es => publishErr.isNone && allPublishOk es
  | Event.tick :: es => allPublishOk es

/-- Expiry test of the token verifier: a token is accepted at instant `t` when the Unix
second of `t` is not after `ExpiresAt`. -/
def unexpiredAt (claims : StandardClaims) (t : Time) : Bool := t.Unix ≤ claims.ExpiresAt


/-- A configuration with rotation period `P` hours and empty authority material. -/
def configWithPeriod (P : Int) : HubConfig :=
  { Ca := [], CaKey := [], TokenRefreshDuration := P, DNSNames := [], AdvertiseAddress := [] }

/-- A signer that always succeeds with a fixed three-part token text. -/
def constantSigner : Signer := fun _ _ => ("h.c.s".toList, none)


/-- The relation between the counters that every execution keeps while no publish fails. -/
def RotatorInv (s : Rotator) : Prop :=
  s.pc ≠ Pc.exited ∧
  s.rotations = s.ticks + (if s.pc = Pc.waitTick then 1 else 0) ∧
  s.handed.length = s.rotations ∧
  s.published = s.handed.getLast?

/-! ## Arithmetic of the expiry -/

theorem wrapInt64_of_inRange (x : Int) (hlo : -9223372036854775808 ≤ x)
    (hhi : x < 9223372036854775808) : wrapInt64 x = x := by
  unfold wrapInt64
  norm_num
  omega

/-- Up to 1281023 hours the ticker interval is the period itself. -/
theorem rotationPeriod_exact (cfg : HubConfig) (hpos : 0 < cfg.TokenRefreshDuration)
    (hmax : cfg.TokenRefreshDuration ≤ 1281023) :
    rotationPeriod cfg = 3600000000000 * cfg.TokenRefreshDuration := by
  unfold rotationPeriod Duration.mul Hour
  exact wrapInt64_of_inRange _ (by omega) (by omega)

/-- Up to 1281023 hours the doubled period does not leave the `int64` range. -/
theorem doubled_period_exact (P : Int) (hpos : 0 < P) (hmax : P ≤ 1281023) :
    Duration.mul (Duration.mul Hour P) 2 = 7200000000000 * P := by
  unfold Duration.mul Hour
  rw [wrapInt64_of_inRange (3600000000000 * P) (by omega) (by omega)]
  rw [wrapInt64_of_inRange _ (by omega) (by omega)]
  omega

theorem expiresAt_of_small_period (cfg : HubConfig) (now : Time)
    (hpos : 0 < cfg.TokenRefreshDuration) (hmax : cfg.TokenRefreshDuration ≤ 1281023) :
    (refreshTokenClaims cfg now).ExpiresAt = now.Unix + 7200 * cfg.TokenRefreshDuration := by
  simp only [refreshTokenClaims, Time.Add, Time.Unix]
  rw [doubled_period_exact _ hpos hmax]
  omega

theorem wrapInt64_lt (x : Int) : wrapInt64 x < 9223372036854775808 := by
  unfold wrapInt64
  norm_num
  omega

/-- The bound of 1281023 hours is sharp: for a positive period the expiry is the doubled
one exactly when the period does not exceed it. -/
theorem expiresAt_doubles_iff (cfg : HubConfig) (now : Time)
    (hpos : 0 < cfg.TokenRefreshDuration) :
    (refreshTokenClaims cfg now).ExpiresAt = now.Unix + 2 * 3600 * cfg.TokenRefreshDuration ↔
      cfg.TokenRefreshDuration ≤ 1281023 := by
  constructor
  · intro h
    by_contra hbig
    have hw := wrapInt64_lt (Duration.mul Hour cfg.TokenRefreshDuration * 2)
    simp only [refreshTokenClaims, Time.Add, Time.Unix, Duration.mul] at h hw
    omega
  · intro hmax
    rw [expiresAt_of_small_period cfg now hpos hmax]
    ring

theorem refreshToken_fst (cfg : HubConfig) (sign : Signer) (now : Time) :
    (refreshToken cfg sign now).1 =
      getCaHash cfg ++ '.' :: (sign (refreshTokenClaims cfg now) (getCaKey cfg)).1 := by
  simp [refreshToken, stringsJoin]

/-! ## C1 -/

/-- C1, counterexample: with a period of 1281024 hours (positive, and a valid `int64`
duration count) the doubled period wraps around, and a token signed at the epoch carries
`ExpiresAt = -9223371274`, not `unix(T) + 2*3600*P = 9223372800`. -/
theorem refreshToken_expiry_wraps :
    0 < (configWithPeriod 1281024).TokenRefreshDuration ∧
    (refreshTokenClaims (configWithPeriod 1281024) ⟨0⟩).ExpiresAt = -9223371274 ∧
    (refreshTokenClaims (configWithPeriod 1281024) ⟨0⟩).ExpiresAt ≠
      Time.Unix ⟨0⟩ + 2 * 3600 * (configWithPeriod 1281024).TokenRefreshDuration := by
  decide

/-- C1, amended: for every rotation period `P` with `0 < P ≤ 1281023` hours (the periods
whose double fits a 64-bit nanosecond duration), every signing time `T` and every signer,
the claims that `refreshToken` signs carry `ExpiresAt = unix(T) + 2*3600*P`, and the
credential returned is built from the token signed over exactly these claims. -/
theorem refreshToken_expiresAt_doubles (cfg : HubConfig) (sign : Signer) (now : Time)
    (hpos : 0 < cfg.TokenRefreshDuration) (hmax : cfg.TokenRefreshDuration ≤ 1281023) :
    (refreshTokenClaims cfg now).ExpiresAt = now.Unix + 2 * 3600 * cfg.TokenRefreshDuration ∧
    (refreshToken cfg sign now).1 =
      getCaHash cfg ++ '.' ::
        (sign { StandardClaims.zero with
                  ExpiresAt := now.Unix + 2 * 3600 * cfg.TokenRefreshDuration }
          (getCaKey cfg)).1 := by
  have h := expiresAt_of_small_period cfg now hpos hmax
  have hc : refreshTokenClaims cfg now =
      { StandardClaims.zero with
          ExpiresAt := now.Unix + 2 * 3600 * cfg.TokenRefreshDuration } := by
    have h2 : (refreshTokenClaims cfg now) =
        { StandardClaims.zero with ExpiresAt := (refreshTokenClaims cfg now).ExpiresAt } := rfl
    rw [h2, h]
    norm_num
  refine ⟨by rw [h]; ring, ?_⟩
  rw [refreshToken_fst, hc]

/-- C1, witness: a 12 hour period and a signing time half a second past a whole second. -/
theorem refreshToken_expiresAt_doubles_witness :
    (0 < (configWithPeriod 12).TokenRefreshDuration ∧
      (configWithPeriod 12).TokenRefreshDuration ≤ 1281023) ∧
    ((refreshTokenClaims (configWithPeriod 12) ⟨1700000000500000000⟩).ExpiresAt =
        Time.Unix ⟨1700000000500000000⟩ + 2 * 3600 * (configWithPeriod 12).TokenRefreshDuration ∧
      (refreshToken (configWithPeriod 12) constantSigner ⟨1700000000500000000⟩).1 =
        getCaHash (configWithPeriod 12) ++ '.' ::
          (constantSigner { StandardClaims.zero with
              ExpiresAt := Time.Unix ⟨1700000000500000000⟩ +
                2 * 3600 * (configWithPeriod 12).TokenRefreshDuration }
            (getCaKey (configWithPeriod 12))).1) :=
  ⟨by decide,
    refreshToken_expiresAt_doubles (configWithPeriod 12) constantSigner ⟨1700000000500000000⟩
      (by decide) (by decide)⟩

/-! ## C2 -/

/-- C2, counterexample: (a) period one hour, rotation half a second past the epoch,
instant `t = T + P`: the token expires at second 7200, so 3599.5 seconds of validity
remain, less than the period; (b) period 1281024 hours, rotation and instant at the
epoch: the expiry has wrapped to a negative second and the remaining validity is
negative. -/
theorem remaining_validity_below_period :
    ((⟨500000000⟩ : Time).nanos ≤ (⟨3600500000000⟩ : Time).nanos ∧
      (⟨3600500000000⟩ : Time).nanos ≤
        (⟨500000000⟩ : Time).nanos + rotationPeriod (configWithPeriod 1) ∧
      (refreshTokenClaims (configWithPeriod 1) ⟨500000000⟩).ExpiresAt * 1000000000 -
        (⟨3600500000000⟩ : Time).nanos < rotationPeriod (configWithPeriod 1)) ∧
    ((⟨0⟩ : Time).nanos ≤ (⟨0⟩ : Time).nanos + rotationPeriod (configWithPeriod 1281024) ∧
      (refreshTokenClaims (configWithPeriod 1281024) ⟨0⟩).ExpiresAt * 1000000000 -
        (⟨0⟩ : Time).nanos < rotationPeriod (configWithPeriod 1281024)) := by
  decide

/-- C2, amended: for every period `P` with `0 < P ≤ 1281023` hours, every rotation time
`T` and every instant `t` with `T ≤ t ≤ T + P`: counted in whole Unix seconds, the unit
of `ExpiresAt` and of the verifier's clock, the remaining validity `ExpiresAt - unix(t)`
is at least `P` (and at most `2P`); at nanosecond resolution it is more than `P` minus one second, and at
least `P` when `T` falls on a whole second. -/
theorem token_validity_at_least_period (cfg : HubConfig) (T t : Time)
    (hpos : 0 < cfg.TokenRefreshDuration) (hmax : cfg.TokenRefreshDuration ≤ 1281023)
    (hfrom : T.nanos ≤ t.nanos) (hto : t.nanos ≤ T.nanos + rotationPeriod cfg) :
    3600 * cfg.TokenRefreshDuration ≤ (refreshTokenClaims cfg T).ExpiresAt - t.Unix ∧
    (refreshTokenClaims cfg T).ExpiresAt - t.Unix ≤ 2 * 3600 * cfg.TokenRefreshDuration ∧
    rotationPeriod cfg - 1000000000 <
      (refreshTokenClaims cfg T).ExpiresAt * 1000000000 - t.nanos ∧
    (T.nanos % 1000000000 = 0 →
      rotationPeriod cfg ≤ (refreshTokenClaims cfg T).ExpiresAt * 1000000000 - t.nanos) := by
  rw [rotationPeriod_exact cfg hpos hmax] at hto ⊢
  rw [expiresAt_of_small_period cfg T hpos hmax]
  simp only [Time.Unix]
  refine ⟨by omega, by omega, by omega, fun h => by omega⟩

/-- C2, witness: period one hour, rotation half a second past the epoch, `t = T + P`. -/
theorem token_validity_at_least_period_witness :
    (0 < (configWithPeriod 1).TokenRefreshDuration ∧
      (configWithPeriod 1).TokenRefreshDuration ≤ 1281023 ∧
      (⟨500000000⟩ : Time).nanos ≤ (⟨3600500000000⟩ : Time).nanos ∧
      (⟨3600500000000⟩ : Time).nanos ≤
        (⟨500000000⟩ : Time).nanos + rotationPeriod (configWithPeriod 1)) ∧
    (3600 * (configWithPeriod 1).TokenRefreshDuration ≤
        (refreshTokenClaims (configWithPeriod 1) ⟨500000000⟩).ExpiresAt -
          Time.Unix ⟨3600500000000⟩ ∧
      (refreshTokenClaims (configWithPeriod 1) ⟨500000000⟩).ExpiresAt -
          Time.Unix ⟨3600500000000⟩ ≤ 2 * 3600 * (configWithPeriod 1).TokenRefreshDuration ∧
      rotationPeriod (configWithPeriod 1) - 1000000000 <
        (refreshTokenClaims (configWithPeriod 1) ⟨500000000⟩).ExpiresAt * 1000000000 -
          (⟨3600500000000⟩ : Time).nanos ∧
      ((⟨500000000⟩ : Time).nanos % 1000000000 = 0 →
        rotationPeriod (configWithPeriod 1) ≤
          (refreshTokenClaims (configWithPeriod 1) ⟨500000000⟩).ExpiresAt * 1000000000 -
            (⟨3600500000000⟩ : Time).nanos)) :=
  ⟨by decide,
    token_validity_at_least_period (configWithPeriod 1) ⟨500000000⟩ ⟨3600500000000⟩
      (by decide) (by decide) (by decide) (by decide)⟩

/-! ## C9 -/

/-- C9, counterexample: (a) period one hour, credential A signed half a second past the
epoch and B one period later; at `t = 7200.2 s`, which lies in `[T + P, T + 2P)`, the
expiry second 7200 of A is not after `t`, neither at nanosecond resolution nor against
the Unix second of `t`; (b) period 1281024 hours, A signed at the epoch, `t = T + P`: the
expiry of A has wrapped to a negative second. -/
theorem overlap_strict_fails :
    ((⟨500000000⟩ : Time).nanos + rotationPeriod (configWithPeriod 1) ≤
        (⟨7200200000000⟩ : Time).nanos ∧
      (⟨7200200000000⟩ : Time).nanos <
        (⟨500000000⟩ : Time).nanos + 2 * rotationPeriod (configWithPeriod 1) ∧
      ¬ ((⟨7200200000000⟩ : Time).nanos <
        (refreshTokenClaims (configWithPeriod 1) ⟨500000000⟩).ExpiresAt * 1000000000) ∧
      ¬ (Time.Unix ⟨7200200000000⟩ <
        (refreshTokenClaims (configWithPeriod 1) ⟨500000000⟩).ExpiresAt)) ∧
    ((⟨0⟩ : Time).nanos + rotationPeriod (configWithPeriod 1281024) ≤
        (Time.Add ⟨0⟩ (rotationPeriod (configWithPeriod 1281024))).nanos ∧
      (Time.Add ⟨0⟩ (rotationPeriod (configWithPeriod 1281024))).nanos <
        (⟨0⟩ : Time).nanos + 2 * rotationPeriod (configWithPeriod 1281024) ∧
      ¬ (Time.Unix (Time.Add ⟨0⟩ (rotationPeriod (configWithPeriod 1281024))) <
        (refreshTokenClaims (configWithPeriod 1281024) ⟨0⟩).ExpiresAt)) := by
  decide

/-- C9, amended: for every period `P` with `0 < P ≤ 1281023` hours, credential A signed at
`T` and credential B signed at `T + P`, at every instant `t` with `T + P ≤ t < T + 2P`
both tokens pass the verifier's expiry test (the Unix second of `t` is not after
`ExpiresAt`); B is strictly unexpired (`ExpiresAt(B) > t`), and so is A when `T` falls on
a whole second. -/
theorem successive_tokens_overlap (cfg : HubConfig) (T t : Time)
    (hpos : 0 < cfg.TokenRefreshDuration) (hmax : cfg.TokenRefreshDuration ≤ 1281023)
    (hfrom : T.nanos + rotationPeriod cfg ≤ t.nanos)
    (hto : t.nanos < T.nanos + 2 * rotationPeriod cfg) :
    unexpiredAt (refreshTokenClaims cfg T) t = true ∧
    unexpiredAt (refreshTokenClaims cfg (T.Add (rotationPeriod cfg))) t = true ∧
    t.nanos < (refreshTokenClaims cfg (T.Add (rotationPeriod cfg))).ExpiresAt * 1000000000 ∧
    (T.nanos % 1000000000 = 0 →
      t.nanos < (refreshTokenClaims cfg T).ExpiresAt * 1000000000) := by
  rw [rotationPeriod_exact cfg hpos hmax] at hfrom hto ⊢
  simp only [unexpiredAt, decide_eq_true_eq]
  rw [expiresAt_of_small_period cfg T hpos hmax, expiresAt_of_small_period cfg _ hpos hmax]
  simp only [Time.Unix, Time.Add]
  refine ⟨by omega, by omega, by omega, fun h => by omega⟩

/-- C9, witness: period one hour, A signed at the epoch, `t` one hour and a half later. -/
theorem successive_tokens_overlap_witness :
    (0 < (configWithPeriod 1).TokenRefreshDuration ∧
      (configWithPeriod 1).TokenRefreshDuration ≤ 1281023 ∧
      (⟨0⟩ : Time).nanos + rotationPeriod (configWithPeriod 1) ≤ (⟨5400000000000⟩ : Time).nanos ∧
      (⟨5400000000000⟩ : Time).nanos <
        (⟨0⟩ : Time).nanos + 2 * rotationPeriod (configWithPeriod 1)) ∧
    (unexpiredAt (refreshTokenClaims (configWithPeriod 1) ⟨0⟩) ⟨5400000000000⟩ = true ∧
      unexpiredAt (refreshTokenClaims (configWithPeriod 1)
        (Time.Add ⟨0⟩ (rotationPeriod (configWithPeriod 1)))) ⟨5400000000000⟩ = true ∧
      (⟨5400000000000⟩ : Time).nanos <
        (refreshTokenClaims (configWithPeriod 1)
          (Time.Add ⟨0⟩ (rotationPeriod (configWithPeriod 1)))).ExpiresAt * 1000000000 ∧
      ((⟨0⟩ : Time).nanos % 1000000000 = 0 →
        (⟨5400000000000⟩ : Time).nanos <
          (refreshTokenClaims (configWithPeriod 1) ⟨0⟩).ExpiresAt * 1000000000)) :=
  ⟨by decide,
    successive_tokens_overlap (configWithPeriod 1) ⟨0⟩ ⟨5400000000000⟩
      (by decide) (by decide) (by decide) (by decide)⟩

/-! ## Hexadecimal rendering -/

set_option maxRecDepth 100000 in
theorem nibbles_of_byte : ∀ v : Byte,
    v.val >>> 4 < 16 ∧ v.val &&& 0x0f < 16 ∧ byteOf ((v.val >>> 4) <<< 4 ||| (v.val &&& 0x0f)) = v := by
  decide

theorem hextable_digit : ∀ n : Fin 16,
    fromHexChar (hextable.getD n.val '0') = some n.val ∧
    isLowerHex (hextable.getD n.val '0') = true ∧
    hextable.getD n.val '0' ≠ '.' := by
  decide

theorem hexEncodeToString_length (bs : List Byte) :
    (hexEncodeToString bs).length = 2 * bs.length := by
  induction bs with
  | nil => rfl
  | cons v rest ih => simp [hexEncodeToString, ih]; omega

theorem hexEncodeToString_chars (bs : List Byte) :
    ∀ c ∈ hexEncodeToString bs, isLowerHex c = true ∧ c ≠ '.' := by
  induction bs with
  | nil => simp [hexEncodeToString]
  | cons v rest ih =>
    intro c hc
    simp only [hexEncodeToString, List.mem_cons] at hc
    have hn := nibbles_of_byte v
    rcases hc with h | h | h
    · subst h
      exact (hextable_digit ⟨v.val >>> 4, hn.1⟩).2
    · subst h
      exact (hextable_digit ⟨v.val &&& 0x0f, hn.2.1⟩).2
    · exact ih c h

theorem hexDecodeString_encode (bs : List Byte) :
    hexDecodeString (hexEncodeToString bs) = some bs := by
  induction bs with
  | nil => rfl
  | cons v rest ih =>
    have hn := nibbles_of_byte v
    have h1 := (hextable_digit ⟨v.val >>> 4, hn.1⟩).1
    have h2 := (hextable_digit ⟨v.val &&& 0x0f, hn.2.1⟩).1
    simp only [hexEncodeToString, hexDecodeString] at *
    rw [h1, h2, ih]
    simp [hn.2.2]

theorem hexEncodeToString_pair (bs : List Byte) (i : Nat) (hi : i < bs.length) :
    fromHexChar ((hexEncodeToString bs).getD (2 * i) ' ') = some ((bs.getD i 0).val >>> 4) ∧
    fromHexChar ((hexEncodeToString bs).getD (2 * i + 1) ' ') =
      some ((bs.getD i 0).val &&& 0x0f) := by
  induction bs generalizing i with
  | nil => simp at hi
  | cons v rest ih =>
    cases i with
    | zero =>
      have hn := nibbles_of_byte v
      have h1 := (hextable_digit ⟨v.val >>> 4, hn.1⟩).1
      have h2 := (hextable_digit ⟨v.val &&& 0x0f, hn.2.1⟩).1
      refine ⟨?_, ?_⟩
      · simp only [hexEncodeToString, Nat.mul_zero, List.getD_cons_zero]
        exact h1
      · simp only [hexEncodeToString, Nat.mul_zero, Nat.zero_add, List.getD_cons_succ,
          List.getD_cons_zero]
        exact h2
    | succ j =>
      have hj : j < rest.length := by simpa using hi
      have := ih j hj
      have e1 : 2 * (j + 1) = (2 * j) + 1 + 1 := by ring
      rw [e1]
      simp only [hexEncodeToString, List.getD_cons_succ]
      exact this

theorem Sum256_length (data : List Byte) : (Sum256 data).length = 32 := by
  simp [Sum256, be32]

set_option maxRecDepth 100000 in
/-- Standard test vectors of SHA-256: the one-block message `abc` and the two-block
message of 56 characters. -/
theorem Sum256_test_vectors :
    hexEncodeToString (Sum256 ("abc".toList.map (fun c => byteOf c.toNat))) =
      "ba7816bf8f01cfea414140de5dae2223b00361a396177a9cb410ff61f20015ad".toList ∧
    hexEncodeToString (Sum256
        ("abcdbcdecdefdefgefghfghighijhijkijkljklmklmnlmnomnopnopq".toList.map
          (fun c => byteOf c.toNat))) =
      "248d6a61d20638b8e5c026930c3e6039a33ce45964ff2167f6ecedd419db06c1".toList := by
  decide

theorem cutAtDot_append (a b : GoString) (h : ∀ c ∈ a, c ≠ '.') :
    cutAtDot (a ++ '.' :: b) = some (a, b) := by
  induction a with
  | nil => simp [cutAtDot]
  | cons c rest ih =>
    have hc : c ≠ '.' := h c (by simp)
    have hr : ∀ d ∈ rest, d ≠ '.' := fun d hd => h d (by simp [hd])
    simp [cutAtDot, hc, ih hr]

/-! ## C3 -/

/-- C3: for every authority certificate (`cfg.Ca`), every clock reading and every signer,
with `s` the token string the signer returns, `refreshToken` returns exactly
`getCaHash ++ "." ++ s`; the fingerprint holds no dot, so cutting the credential at its
first dot gives back the fingerprint and `s`. -/
theorem refreshToken_wire_format (cfg : HubConfig) (sign : Signer) (now : Time) :
    (refreshToken cfg sign now).1 =
      getCaHash cfg ++ ['.'] ++ (sign (refreshTokenClaims cfg now) (getCaKey cfg)).1 ∧
    (∀ c ∈ getCaHash cfg, c ≠ '.') ∧
    cutAtDot (refreshToken cfg sign now).1 =
      some (getCaHash cfg, (sign (refreshTokenClaims cfg now) (getCaKey cfg)).1) := by
  have hdot : ∀ c ∈ getCaHash cfg, c ≠ '.' := fun c hc =>
    (hexEncodeToString_chars (Sum256 cfg.Ca) c hc).2
  refine ⟨?_, hdot, ?_⟩
  · rw [refreshToken_fst]
    simp
  · rw [refreshToken_fst]
    exact cutAtDot_append _ _ hdot

/-! ## C4 -/

/-- C4: for every certificate byte sequence, `getCaHash` is the hexadecimal rendering of
the SHA-256 digest: the digest has 32 bytes, the text 64 characters, each one of
`0123456789abcdef`; decoding the text gives back the digest, the characters at `2i` and
`2i+1` being the high and the low half of digest byte `i`; and the empty certificate has
the fingerprint `e3b0c442...7852b855`. -/
theorem getCaHash_hex_of_sha256 (cfg : HubConfig) :
    getCaHash cfg = hexEncodeToString (Sum256 cfg.Ca) ∧
    (Sum256 cfg.Ca).length = 32 ∧
    (getCaHash cfg).length = 64 ∧
    (∀ c ∈ getCaHash cfg, isLowerHex c = true) ∧
    hexDecodeString (getCaHash cfg) = some (Sum256 cfg.Ca) ∧
    (∀ i, i < 32 →
      fromHexChar ((getCaHash cfg).getD (2 * i) ' ') =
        some (((Sum256 cfg.Ca).getD i 0).val >>> 4) ∧
      fromHexChar ((getCaHash cfg).getD (2 * i + 1) ' ') =
        some (((Sum256 cfg.Ca).getD i 0).val &&& 0x0f)) ∧
    getCaHash { cfg with Ca := [] } =
      "e3b0c44298fc1c149afbf4c8996fb92427ae41e4649b934ca495991b7852b855".toList := by
  refine ⟨rfl, Sum256_length _, ?_, ?_, ?_, ?_, ?_⟩
  · show (hexEncodeToString (Sum256 cfg.Ca)).length = 64
    rw [hexEncodeToString_length, Sum256_length]
  · exact fun c hc => (hexEncodeToString_chars (Sum256 cfg.Ca) c hc).1
  · exact hexDecodeString_encode _
  · intro i hi
    exact hexEncodeToString_pair (Sum256 cfg.Ca) i (by rw [Sum256_length]; exact hi)
  · show hexEncodeToString (Sum256 []) = _
    decide

/-! ## C5 -/

theorem getIps_foldl (acc : List IP) (A : List GoString) :
    A.foldl (fun Ips addr => Ips ++ [ParseIP addr]) acc = acc ++ A.map ParseIP := by
  induction A generalizing acc with
  | nil => simp
  | cons a rest ih => simp [List.foldl, ih]

/-- C5, counterexample: for the addresses `10.0.0.1` and `not-an-ip`, `getIps` returns two
entries, the parsed address and a nil IP; the result is not the one-element list. -/
theorem getIps_keeps_malformed :
    getIps ["10.0.0.1".toList, "not-an-ip".toList] = [some (IPv4 10 0 0 1), none] ∧
    none ∈ getIps ["10.0.0.1".toList, "not-an-ip".toList] ∧
    getIps ["10.0.0.1".toList, "not-an-ip".toList] ≠ [some (IPv4 10 0 0 1)] := by
  decide

/-- C5, amended: for every list of advertised addresses, `getIps` returns one entry per
address, in order: the result of `net.ParseIP`, that is the parsed IP of a well-formed
address and a nil IP for a malformed one. Nothing is dropped, and the result holds a nil
entry exactly when some address is malformed. -/
theorem getIps_one_entry_per_address (A : List GoString) :
    getIps A = A.map ParseIP ∧
    (getIps A).length = A.length ∧
    (∀ a ∈ A, ParseIP a ∈ getIps A) ∧
    (none ∈ getIps A ↔ ∃ a ∈ A, ParseIP a = none) := by
  have h : getIps A = A.map ParseIP := by
    unfold getIps
    rw [getIps_foldl]
    simp
  rw [h]
  refine ⟨rfl, by simp, ?_, ?_⟩
  · intro a ha
    exact List.mem_map_of_mem _ ha
  · simp [List.mem_map]

/-! ## C8 -/

/-- C8: for every configuration and every issuer, the request that `SignCerts` passes to
the issuer has the (non-empty) project name as common name, that same name as the only
organization, server authentication as the only extended key usage, the configured DNS
names verbatim and `getIps` of the advertised addresses; `SignCerts` returns the
issuer's certificate and key unchanged when the issuer returns no error, and
`(nil, nil, err)` when the issuer returns `err`; its error is the issuer's error. -/
theorem signCerts_request_and_result (newCert : Issuer) (cfg : HubConfig) :
    (signCertsConfig cfg).CommonName = ProjectName ∧
    (signCertsConfig cfg).CommonName ≠ [] ∧
    (signCertsConfig cfg).Organization = [(signCertsConfig cfg).CommonName] ∧
    (signCertsConfig cfg).Usages = [ExtKeyUsage.ExtKeyUsageServerAuth] ∧
    (signCertsConfig cfg).AltNames.DNSNames = cfg.DNSNames ∧
    (signCertsConfig cfg).AltNames.IPs = getIps cfg.AdvertiseAddress ∧
    ((newCert (signCertsConfig cfg)).err = none →
      SignCerts newCert cfg =
        { certDER := (newCert (signCertsConfig cfg)).certDER,
          keyDER := (newCert (signCertsConfig cfg)).keyDER, err := none }) ∧
    (∀ e, (newCert (signCertsConfig cfg)).err = some e →
      SignCerts newCert cfg = { certDER := none, keyDER := none, err := some e }) ∧
    (SignCerts newCert cfg).err = (newCert (signCertsConfig cfg)).err := by
  have hne : ProjectName ≠ [] := by decide
  refine ⟨rfl, hne, rfl, rfl, rfl, rfl, ?_, ?_, ?_⟩
  · intro h
    simp [SignCerts, h]
  · intro e h
    simp [SignCerts, h]
  · cases h : (newCert (signCertsConfig cfg)).err <;> simp [SignCerts, h]

/-! ## The rotation loop -/

theorem step_exited (cfg : HubConfig) (sign : Signer) (s : Rotator) (e : Event)
    (h : s.pc = Pc.exited) : Rotator.step cfg sign s e = none := by
  cases e <;> simp [Rotator.step, h]

theorem run_exited (cfg : HubConfig) (sign : Signer) (s r : Rotator) (es : List Event)
    (h : s.pc = Pc.exited) (hrun : Rotator.run cfg sign s es = some r) : es = [] ∧ r = s := by
  cases es with
  | nil =>
    simp only [Rotator.run, Option.some.injEq] at hrun
    exact ⟨rfl, hrun.symm⟩
  | cons e rest => simp [Rotator.run, step_exited cfg sign s e h] at hrun

theorem step_preserves_inv (cfg : HubConfig) (sign : Signer) (s r : Rotator) (e : Event)
    (hinv : RotatorInv s) (hok : allPublishOk [e] = true)
    (hstep : Rotator.step cfg sign s e = some r) : RotatorInv r := by
  obtain ⟨h1, h2, h3, h4⟩ := hinv
  cases e with
  | iterate now publishErr =>
    cases publishErr with
    | some err => simp [allPublishOk] at hok
    | none =>
      cases hpc : s.pc with
      | loopHead =>
        simp only [Rotator.step, hpc, Option.some.injEq] at hstep
        subst hstep
        simp only [hpc] at h2
        refine ⟨by simp, ?_, ?_, ?_⟩
        · simp at h2 ⊢
          omega
        · simp [h3]
        · simp
      | waitTick => simp [Rotator.step, hpc] at hstep
      | exited => exact absurd hpc h1
  | tick =>
    cases hpc : s.pc with
    | loopHead => simp [Rotator.step, hpc] at hstep
    | waitTick =>
      simp only [Rotator.step, hpc, Option.some.injEq] at hstep
      subst hstep
      simp only [hpc] at h2
      refine ⟨by simp, ?_, h3, h4⟩
      simp at h2 ⊢
      omega
    | exited => exact absurd hpc h1

theorem run_preserves_inv (cfg : HubConfig) (sign : Signer) (es : List Event) :
    ∀ s r : Rotator, RotatorInv s → allPublishOk es = true →
      Rotator.run cfg sign s es = some r → RotatorInv r := by
  induction es with
  | nil =>
    intro s r hinv _ hrun
    simp only [Rotator.run, Option.some.injEq] at hrun
    exact hrun ▸ hinv
  | cons e rest ih =>
    intro s r hinv hok hrun
    have hoke : allPublishOk [e] = true ∧ allPublishOk rest = true := by
      cases e with
      | iterate now publishErr => simpa [allPublishOk] using hok
      | tick => simpa [allPublishOk] using hok
    simp only [Rotator.run] at hrun
    cases hs : Rotator.step cfg sign s e with
    | none => simp [hs] at hrun
    | some s1 =>
      simp only [hs] at hrun
      exact ih s1 r (step_preserves_inv cfg sign s s1 e hinv hoke.1 hs) hoke.2 hrun

theorem init_inv : RotatorInv Rotator.init := by
  refine ⟨by decide, by decide, rfl, rfl⟩

/-- Running the undisturbed schedule from a state at the loop head. -/
theorem run_schedule (cfg : HubConfig) (sign : Signer) (rest : List Time) :
    ∀ (first : Time) (s : Rotator), s.pc = Pc.loopHead →
      ∃ r, Rotator.run cfg sign s (schedule (first :: rest)) = some r ∧
        r.pc = Pc.waitTick ∧
        r.ticks = s.ticks + rest.length ∧
        r.rotations = s.rotations + rest.length + 1 ∧
        r.handed = s.handed ++ (first :: rest).map (fun now => (refreshToken cfg sign now).1) ∧
        r.published =
          some ((refreshToken cfg sign ((first :: rest).getLast (by simp))).1) := by
  induction rest with
  | nil =>
    intro first s hpc
    simp [schedule, Rotator.run, Rotator.step, hpc]
  | cons next rest ih =>
    intro first s hpc
    obtain ⟨r, hr, h1, h2, h3, h4, h5⟩ := ih next
      { s with
        pc := Pc.loopHead,
        published := some (refreshToken cfg sign first).1,
        handed := s.handed ++ [(refreshToken cfg sign first).1],
        rotations := s.rotations + 1,
        ticks := s.ticks + 1,
        log := s.log ++ (refreshToken cfg sign first).2 ++
          [LogLine.info "Succeed to creating token"] } rfl
    refine ⟨r, ?_, h1, ?_, ?_, ?_, ?_⟩
    · simp only [schedule, Rotator.run, Rotator.step, hpc]
      exact hr
    · simp only [h2, List.length_cons]
      omega
    · simp only [h3, List.length_cons]
      omega
    · simp only [h4, List.map_cons, List.append_assoc, List.singleton_append]
    · rw [h5]
      simp

theorem allPublishOk_schedule (rest : List Time) :
    ∀ first : Time, allPublishOk (schedule (first :: rest)) = true := by
  induction rest with
  | nil => intro first; rfl
  | cons next rest ih =>
    intro first
    simp only [schedule, allPublishOk, Option.isNone_none, Bool.true_and]
    exact ih next

/-! ## C6 -/

/-- C6: whenever the loop body runs (the goroutine is at the loop head) and
`CreateTokenSecret` returns an error, the step leads to the exited state; the published
value is the one of the previous successful publish, no tick is consumed, and from the
new state no event can happen: no step exists, and every execution from it is empty. -/
theorem publish_error_terminates (cfg : HubConfig) (sign : Signer) (s : Rotator) (now : Time)
    (err : GoError) (hpc : s.pc = Pc.loopHead) :
    ∃ r, Rotator.step cfg sign s (Event.iterate now (some err)) = some r ∧
      r.pc = Pc.exited ∧
      r.published = s.published ∧
      r.ticks = s.ticks ∧
      (∀ e, Rotator.step cfg sign r e = none) ∧
      (∀ es r2, Rotator.run cfg sign r es = some r2 → es = [] ∧ r2 = r) := by
  refine ⟨{ s with
      pc := Pc.exited,
      handed := s.handed ++ [(refreshToken cfg sign now).1],
      rotations := s.rotations + 1,
      log := s.log ++ (refreshToken cfg sign now).2 ++
        [LogLine.exit "Failed to create the ca token for edgecore register, err: %v" err] },
    by simp only [Rotator.step, hpc], rfl, rfl, rfl, ?_, ?_⟩
  · intro e
    exact step_exited cfg sign _ e rfl
  · intro es r2 hrun
    exact run_exited cfg sign _ r2 es rfl hrun

/-- C6, witness: the very first publish fails, at the start of the goroutine. -/
theorem publish_error_terminates_witness :
    Rotator.init.pc = Pc.loopHead ∧
    ∃ r, Rotator.step (configWithPeriod 12) constantSigner Rotator.init
        (Event.iterate ⟨0⟩ (some "storage outage")) = some r ∧
      r.pc = Pc.exited ∧
      r.published = Rotator.init.published ∧
      r.ticks = Rotator.init.ticks ∧
      (∀ e, Rotator.step (configWithPeriod 12) constantSigner r e = none) ∧
      (∀ es r2, Rotator.run (configWithPeriod 12) constantSigner r es = some r2 →
        es = [] ∧ r2 = r) :=
  ⟨rfl, publish_error_terminates (configWithPeriod 12) constantSigner Rotator.init ⟨0⟩
    "storage outage" rfl⟩

/-! ## C10 -/

/-- C10, counterexample: with a one hour period the goroutine starts, runs the loop body
once with a successful publish, and is then blocked on the timer: no tick has been
consumed, and one rotation with one Publisher call has been performed. -/
theorem first_rotation_precedes_first_tick :
    GenerateToken (configWithPeriod 1) = some Rotator.init ∧
    allPublishOk [Event.iterate ⟨0⟩ none] = true ∧
    (Rotator.run (configWithPeriod 1) constantSigner Rotator.init
        [Event.iterate ⟨0⟩ none]).map (fun s => (s.pc, s.ticks, s.rotations, s.handed.length)) =
      some (Pc.waitTick, 0, 1, 1) := by
  decide

/-- C10, amended: with every publish succeeding, the loop performs its first rotation at
start-up, before any tick, and then one rotation per tick received. In every state an
execution reaches, the goroutine has not exited, the number of rotations is the number of
ticks consumed plus one when it is blocked on the timer (and equal to it at the loop
head), every rotation made exactly one Publisher call, and the published value is the
credential of the last one. Such executions exist for every number of ticks: the
schedule with `k + 1` clock readings ends blocked on the timer with `k` ticks consumed
and `k + 1` rotations, the credentials handed over being those of `refreshToken`. -/
theorem rotations_one_more_than_ticks (cfg : HubConfig) (sign : Signer) :
    (∀ es r, allPublishOk es = true → Rotator.run cfg sign Rotator.init es = some r →
      r.pc ≠ Pc.exited ∧
      r.rotations = r.ticks + (if r.pc = Pc.waitTick then 1 else 0) ∧
      r.handed.length = r.rotations ∧
      r.published = r.handed.getLast?) ∧
    (∀ (first : Time) (rest : List Time),
      allPublishOk (schedule (first :: rest)) = true ∧
      ∃ r, Rotator.run cfg sign Rotator.init (schedule (first :: rest)) = some r ∧
        r.pc = Pc.waitTick ∧
        r.ticks = rest.length ∧
        r.rotations = rest.length + 1 ∧
        r.handed = (first :: rest).map (fun now => (refreshToken cfg sign now).1) ∧
        r.published =
          some ((refreshToken cfg sign ((first :: rest).getLast (by simp))).1)) := by
  refine ⟨?_, ?_⟩
  · intro es r hok hrun
    exact run_preserves_inv cfg sign es Rotator.init r init_inv hok hrun
  · intro first rest
    refine ⟨allPublishOk_schedule rest first, ?_⟩
    obtain ⟨r, hr, h1, h2, h3, h4, h5⟩ := run_schedule cfg sign rest first Rotator.init rfl
    refine ⟨r, hr, h1, ?_, ?_, ?_, h5⟩
    · simpa [Rotator.init] using h2
    · simpa [Rotator.init] using h3
    · simpa [Rotator.init] using h4

/-! ## Library checks -/

/-- Values of `net.ParseIP`: dotted IPv4, IPv6 with an ellipsis and with an embedded
IPv4 address are parsed; a group of five hex digits, a leading zero in an octet, a zone
and plain text give nil. -/
theorem ParseIP_examples :
    ParseIP "10.0.0.1".toList = some (IPv4 10 0 0 1) ∧
    ParseIP "::1".toList = some [0, 0, 0, 0, 0, 0, 0, 0, 0, 0, 0, 0, 0, 0, 0, 1] ∧
    ParseIP "2001:db8::68".toList =
      some [0x20, 0x01, 0x0d, 0xb8, 0, 0, 0, 0, 0, 0, 0, 0, 0, 0, 0, 0x68] ∧
    ParseIP "::ffff:10.0.0.1".toList = some (IPv4 10 0 0 1) ∧
    ParseIP "::00001".toList = none ∧
    ParseIP "01.2.3.4".toList = none ∧
    ParseIP "1.2.3".toList = none ∧
    ParseIP "fe80::1%eth0".toList = none ∧
    ParseIP "not-an-ip".toList = none := by
  decide

set_option maxRecDepth 100000 in
/-- A published HS256 example: the signature of the well-known sample token under the
key `your-256-bit-secret`. -/
theorem hmacSHA256_example :
    EncodeSegment (hmacSHA256 (stringBytes "your-256-bit-secret".toList)
      (stringBytes ("eyJhbGciOiJIUzI1NiIsInR5cCI6IkpXVCJ9." ++
        "eyJzdWIiOiIxMjM0NTY3ODkwIiwibmFtZSI6IkpvaG4gRG9lIiwiaWF0IjoxNTE2MjM5MDIyfQ").toList)) =
      "SflKxwRJSMeKKF2QT4fwpMeJf36POk6yJV_adQssw5c".toList := by
  decide

/-! ## The HS256 signer -/

theorem getD_mem_or_default {α : Type} (l : List α) (n : Nat) (d : α) :
    l.getD n d ∈ l ∨ l.getD n d = d := by
  induction l generalizing n with
  | nil => right; rfl
  | cons a rest ih =>
    cases n with
    | zero => left; simp
    | succ k =>
      rcases ih k with h | h
      · left
        simp only [List.getD_cons_succ]
        exact List.mem_cons_of_mem _ h
      · right
        simpa using h

theorem base64Char_ne_dot (n : Nat) : base64Char n ≠ '.' := by
  have hall : ∀ c ∈ encodeURL, c ≠ '.' := by decide
  rcases getD_mem_or_default encodeURL n 'A' with h | h
  · exact hall _ h
  · unfold base64Char
    rw [h]
    decide

theorem base64URLEncodeToString_no_dot (bs : List Byte) :
    ∀ c ∈ base64URLEncodeToString bs, c ≠ '.' := by
  induction bs using base64URLEncodeToString.induct with
  | case1 a b c rest ih =>
    intro x hx
    simp only [base64URLEncodeToString, List.mem_cons] at hx
    rcases hx with h | h | h | h | h
    · exact h ▸ base64Char_ne_dot _
    · exact h ▸ base64Char_ne_dot _
    · exact h ▸ base64Char_ne_dot _
    · exact h ▸ base64Char_ne_dot _
    · exact ih x h
  | case2 a b =>
    intro x hx
    simp only [base64URLEncodeToString, List.mem_cons] at hx
    rcases hx with h | h | h | h | h
    · exact h ▸ base64Char_ne_dot _
    · exact h ▸ base64Char_ne_dot _
    · exact h ▸ base64Char_ne_dot _
    · rw [h]; decide
    · simp at h
  | case3 a =>
    intro x hx
    simp only [base64URLEncodeToString, List.mem_cons] at hx
    rcases hx with h | h | h | h | h
    · exact h ▸ base64Char_ne_dot _
    · exact h ▸ base64Char_ne_dot _
    · rw [h]; decide
    · rw [h]; decide
    · simp at h
  | case4 =>
    intro x hx
    simp [base64URLEncodeToString] at hx

theorem EncodeSegment_no_dot (seg : List Byte) : ∀ c ∈ EncodeSegment seg, c ≠ '.' := by
  intro c hc
  unfold EncodeSegment trimRightEq at hc
  rw [List.mem_reverse] at hc
  have h1 := (List.dropWhile_suffix (fun c => decide (c = '=')) :
    List.dropWhile _ (base64URLEncodeToString seg).reverse <:+ _).subset hc
  rw [List.mem_reverse] at h1
  exact base64URLEncodeToString_no_dot seg c h1

theorem splitDots_ne_nil (s : GoString) : splitDots s ≠ [] := by
  cases s with
  | nil => simp [splitDots]
  | cons c rest =>
    simp only [splitDots]
    cases splitDots rest with
    | nil => simp
    | cons p ps => by_cases h : c = '.' <;> simp [h]

theorem splitDots_append (a b : GoString) (h : ∀ c ∈ a, c ≠ '.') :
    splitDots (a ++ '.' :: b) = a :: splitDots b := by
  induction a with
  | nil =>
    simp only [List.nil_append, splitDots]
    cases hb : splitDots b with
    | nil => exact absurd hb (splitDots_ne_nil b)
    | cons p ps => simp
  | cons c rest ih =>
    have hc : c ≠ '.' := h c (by simp)
    have hr : ∀ d ∈ rest, d ≠ '.' := fun d hd => h d (by simp [hd])
    simp only [List.cons_append, splitDots, List.append_eq, ih hr, hc, if_false]

theorem splitDots_of_no_dot (a : GoString) (h : ∀ c ∈ a, c ≠ '.') : splitDots a = [a] := by
  induction a with
  | nil => rfl
  | cons c rest ih =>
    have hc : c ≠ '.' := h c (by simp)
    have hr : ∀ d ∈ rest, d ≠ '.' := fun d hd => h d (by simp [hd])
    simp only [splitDots, ih hr, hc, if_false]

/-- The HS256 signer never returns an error, and its token is the signing string, a dot
and the encoded MAC: three parts whose signature is valid under the key. -/
theorem hs256Signer_signed (claims : StandardClaims) (key : List Byte) :
    (hs256Signer claims key).2 = none ∧
    (hs256Signer claims key).1 ≠ [] ∧
    hasValidHS256Signature key (hs256Signer claims key).1 = true := by
  have htok : (hs256Signer claims key).1 =
      EncodeSegment (stringBytes headerJSON) ++ '.' ::
        (EncodeSegment (stringBytes (marshalStandardClaims claims)) ++ '.' ::
          EncodeSegment (hmacSHA256 key (stringBytes (SigningString claims)))) := by
    simp [hs256Signer, SignedString, signHS256, SigningString, stringsJoin]
  refine ⟨rfl, ?_, ?_⟩
  · rw [htok]
    simp
  · unfold hasValidHS256Signature
    rw [htok, splitDots_append _ _ (EncodeSegment_no_dot _),
      splitDots_append _ _ (EncodeSegment_no_dot _),
      splitDots_of_no_dot _ (EncodeSegment_no_dot _)]
    simp [SigningString, stringsJoin]

/-- Every credential an execution hands to the Publisher, and the published one, comes
from a call of `refreshToken`. -/
theorem run_credentials (cfg : HubConfig) (sign : Signer) (es : List Event) :
    ∀ s r : Rotator, Rotator.run cfg sign s es = some r →
      (∀ c ∈ r.handed, c ∈ s.handed ∨ ∃ now, c = (refreshToken cfg sign now).1) ∧
      (∀ c, r.published = some c →
        s.published = some c ∨ ∃ now, c = (refreshToken cfg sign now).1) := by
  induction es with
  | nil =>
    intro s r hrun
    simp only [Rotator.run, Option.some.injEq] at hrun
    subst hrun
    exact ⟨fun c hc => Or.inl hc, fun c hc => Or.inl hc⟩
  | cons e rest ih =>
    intro s r hrun
    simp only [Rotator.run] at hrun
    cases hs : Rotator.step cfg sign s e with
    | none => simp [hs] at hrun
    | some s1 =>
      simp only [hs] at hrun
      obtain ⟨h1, h2⟩ := ih s1 r hrun
      have hstep : (∀ c ∈ s1.handed, c ∈ s.handed ∨ ∃ now, c = (refreshToken cfg sign now).1) ∧
          (∀ c, s1.published = some c →
            s.published = some c ∨ ∃ now, c = (refreshToken cfg sign now).1) := by
        cases e with
        | iterate now publishErr =>
          cases hpc : s.pc with
          | loopHead =>
            cases publishErr with
            | some err =>
              simp only [Rotator.step, hpc, Option.some.injEq] at hs
              subst hs
              refine ⟨fun c hc => ?_, fun c hc => Or.inl hc⟩
              simp only [List.mem_append, List.mem_singleton] at hc
              rcases hc with hc | hc
              · exact Or.inl hc
              · exact Or.inr ⟨now, hc⟩
            | none =>
              simp only [Rotator.step, hpc, Option.some.injEq] at hs
              subst hs
              refine ⟨fun c hc => ?_, fun c hc => ?_⟩
              · simp only [List.mem_append, List.mem_singleton] at hc
                rcases hc with hc | hc
                · exact Or.inl hc
                · exact Or.inr ⟨now, hc⟩
              · simp only [Option.some.injEq] at hc
                exact Or.inr ⟨now, hc.symm⟩
          | waitTick => simp [Rotator.step, hpc] at hs
          | exited => simp [Rotator.step, hpc] at hs
        | tick =>
          cases hpc : s.pc with
          | loopHead => simp [Rotator.step, hpc] at hs
          | waitTick =>
            simp only [Rotator.step, hpc, Option.some.injEq] at hs
            subst hs
            exact ⟨fun c hc => Or.inl hc, fun c hc => Or.inl hc⟩
          | exited => simp [Rotator.step, hpc] at hs
      refine ⟨fun c hc => ?_, fun c hc => ?_⟩
      · rcases h1 c hc with h | h
        · exact hstep.1 c h
        · exact Or.inr h
      · rcases h2 c hc with h | h
        · exact hstep.2 c h
        · exact Or.inr h

theorem cutAtDot_refreshToken (cfg : HubConfig) (sign : Signer) (now : Time) :
    cutAtDot (refreshToken cfg sign now).1 =
      some (getCaHash cfg, (sign (refreshTokenClaims cfg now) (getCaKey cfg)).1) := by
  rw [refreshToken_fst]
  exact cutAtDot_append _ _ (fun c hc => (hexEncodeToString_chars (Sum256 cfg.Ca) c hc).2)

set_option maxRecDepth 100000 in
/-- The first rotation with the HS256 signer, for the empty authority material, period
one hour and the clock at the epoch: the token carries `exp` 7200. -/
theorem hs256_first_rotation :
    (Rotator.step (configWithPeriod 1) hs256Signer Rotator.init (Event.iterate ⟨0⟩ none)).map
        (fun r => (r.pc, r.published)) =
      some (Pc.waitTick, some
        ("e3b0c44298fc1c149afbf4c8996fb92427ae41e4649b934ca495991b7852b855." ++
          "eyJhbGciOiJIUzI1NiIsInR5cCI6IkpXVCJ9.eyJleHAiOjcyMDB9." ++
          "b_SFgVbORqlNCOFHWGmdHSANehx6hVu3bjSDrqmU0kU").toList) := by
  decide

/-! ## C7 -/

/-- C7: the rotator signs with `SigningMethodHS256` and the byte slice of `getCaKey`, and
that signer returns no error for any claims and key, so no rotation meets a signing
failure: `refreshToken` logs nothing, every run of the loop body happens with a
successful signing and hands over the fingerprint, a dot and the signed token, and
(the case never arising) a run of the body with a failed signing hands over nothing. In
every state an execution reaches, each credential handed to the Publisher and the
published credential split at the first dot into the fingerprint and a token that is not
empty and carries a valid HS256 signature under the authority key. For the empty
authority material, period one hour and the clock at the epoch, the first published
credential is the fingerprint followed by the token with `exp` 7200. -/
theorem rotator_publishes_signed_tokens (cfg : HubConfig) :
    (∀ now, (hs256Signer (refreshTokenClaims cfg now) (getCaKey cfg)).2 = none ∧
      (refreshToken cfg hs256Signer now).2 = []) ∧
    (∀ s now publishErr r,
      Rotator.step cfg hs256Signer s (Event.iterate now publishErr) = some r →
        (hs256Signer (refreshTokenClaims cfg now) (getCaKey cfg)).2 = none ∧
        r.handed = s.handed ++
          [getCaHash cfg ++ '.' :: (hs256Signer (refreshTokenClaims cfg now) (getCaKey cfg)).1]) ∧
    (∀ s now publishErr r,
      Rotator.step cfg hs256Signer s (Event.iterate now publishErr) = some r →
        (hs256Signer (refreshTokenClaims cfg now) (getCaKey cfg)).2 ≠ none →
        r.handed = s.handed) ∧
    (∀ es r, Rotator.run cfg hs256Signer Rotator.init es = some r →
      ∀ c, (c ∈ r.handed ∨ r.published = some c) →
        ∃ token, cutAtDot c = some (getCaHash cfg, token) ∧ token ≠ [] ∧
          hasValidHS256Signature (getCaKey cfg) token = true) ∧
    (Rotator.step (configWithPeriod 1) hs256Signer Rotator.init (Event.iterate ⟨0⟩ none)).map
        (fun r => (r.pc, r.published)) =
      some (Pc.waitTick, some
        ("e3b0c44298fc1c149afbf4c8996fb92427ae41e4649b934ca495991b7852b855." ++
          "eyJhbGciOiJIUzI1NiIsInR5cCI6IkpXVCJ9.eyJleHAiOjcyMDB9." ++
          "b_SFgVbORqlNCOFHWGmdHSANehx6hVu3bjSDrqmU0kU").toList) := by
  have hstepHanded : ∀ s now publishErr r,
      Rotator.step cfg hs256Signer s (Event.iterate now publishErr) = some r →
        r.handed = s.handed ++ [(refreshToken cfg hs256Signer now).1] := by
    intro s now publishErr r hs
    cases hpc : s.pc with
    | loopHead =>
      cases publishErr with
      | some err =>
        simp only [Rotator.step, hpc, Option.some.injEq] at hs
        subst hs
        rfl
      | none =>
        simp only [Rotator.step, hpc, Option.some.injEq] at hs
        subst hs
        rfl
    | waitTick => simp [Rotator.step, hpc] at hs
    | exited => simp [Rotator.step, hpc] at hs
  refine ⟨?_, ?_, ?_, ?_, ?_⟩
  · intro now
    exact ⟨rfl, rfl⟩
  · intro s now publishErr r hs
    refine ⟨rfl, ?_⟩
    rw [hstepHanded s now publishErr r hs, refreshToken_fst]
  · intro s now publishErr r _ herr
    exact absurd rfl herr
  · intro es r hrun c hc
    obtain ⟨h1, h2⟩ := run_credentials cfg hs256Signer es Rotator.init r hrun
    have hsrc : ∃ now, c = (refreshToken cfg hs256Signer now).1 := by
      rcases hc with hc | hc
      · rcases h1 c hc with h | h
        · simp [Rotator.init] at h
        · exact h
      · rcases h2 c hc with h | h
        · simp [Rotator.init] at h
        · exact h
    obtain ⟨now, hnow⟩ := hsrc
    have hs := hs256Signer_signed (refreshTokenClaims cfg now) (getCaKey cfg)
    refine ⟨(hs256Signer (refreshTokenClaims cfg now) (getCaKey cfg)).1, ?_, hs.2.1, hs.2.2⟩
    rw [hnow]
    exact (cutAtDot_refreshToken cfg hs256Signer now)
  · exact hs256_first_rotation

end Httpserver
